import Mathlib

/-!
Verification development for the `compare_lemmas` experiment script.

The Python source is shallowly embedded:
* strings are Lean `String`s (lists of Unicode scalar values);
* `unicodedata.normalize("NFC", ·)` is an external library call; it is kept
  as an explicit function parameter `nfc : List Char → List Char`, and
  theorems that need facts about it assume `NFCLike nfc`, the properties of
  Unicode canonical composition that the proofs use (whitespace characters
  are inert under NFC, NFC is idempotent, and NFC cannot erase every
  non-whitespace character);
* a spreadsheet file is its parse outcome: `none` when reading or CSV
  parsing raises, `some rows` otherwise (rows are lists of cell strings);
* the JSON configuration file is its decode outcome (`CfgRead`); JSON
  numeric literals are modelled as integers;
* the two SQLite stores are modelled by their table contents, and each SQL
  query of the script is translated to a list/finset computation.
-/

/-- Whitespace test matching Python's `str.strip` / `re \s` character class
(Unicode whitespace code points, including the ASCII separators 1C-1F). -/
def isWs (c : Char) : Bool :=
  let n := c.toNat
  decide (n = 0x20 ∨ (0x09 ≤ n ∧ n ≤ 0x0d) ∨ (0x1c ≤ n ∧ n ≤ 0x1f) ∨ n = 0x85 ∨
    n = 0xa0 ∨ n = 0x1680 ∨ (0x2000 ≤ n ∧ n ≤ 0x200a) ∨ n = 0x2028 ∨ n = 0x2029 ∨
    n = 0x202f ∨ n = 0x205f ∨ n = 0x3000)

/-- Drop the trailing run of whitespace characters. -/
def dropTrailWs : List Char → List Char
  | [] => []
  | c :: cs =>
    let r := dropTrailWs cs
    if r.isEmpty && isWs c then [] else c :: r

/-- Python `str.strip()`: drop the leading and trailing whitespace runs. -/
def stripWs (l : List Char) : List Char := dropTrailWs (l.dropWhile isWs)

/-- Python `re.sub(r"\s+", " ", ·)`: each maximal nonempty run of whitespace
characters becomes a single ASCII space.  The flag records whether the
previous character belonged to a whitespace run already replaced. -/
def collapseAux : Bool → List Char → List Char
  | _, [] => []
  | b, c :: cs =>
    if isWs c then
      (if b then collapseAux true cs else ' ' :: collapseAux true cs)
    else c :: collapseAux false cs

def collapseWs (l : List Char) : List Char := collapseAux false l

/-- `_norm_surface`: `str(value or "")` is the identity on the strings the
script feeds it; then strip, NFC-normalize (the parameter `nfc`), and
collapse whitespace runs to a single space. -/
def normSurface (nfc : List Char → List Char) (s : String) : String :=
  ⟨collapseWs (nfc (stripWs s.data))⟩

/-- Python `str.strip()` on `String`. -/
def stripStr (s : String) : String := ⟨stripWs s.data⟩

/-- The properties of Unicode canonical composition (NFC) used by the
proofs: it is idempotent, fixes the empty string, commutes with stripping
and collapsing whitespace (whitespace characters have no canonical
decomposition or composition, so they are inert barriers for NFC), and it
cannot erase every non-whitespace character of its input. -/
structure NFCLike (nfc : List Char → List Char) : Prop where
  idem : ∀ l, nfc (nfc l) = nfc l
  nil : nfc [] = []
  strip_comm : ∀ l, nfc (stripWs l) = stripWs (nfc l)
  collapse_comm : ∀ l, nfc (collapseWs l) = collapseWs (nfc l)
  keeps_nonws : ∀ l, (∃ c ∈ l, isWs c = false) → ∃ d ∈ nfc l, isWs d = false

/-- Regex `[぀-ヿ㐀-鿿]` on one character. -/
def isJpChar (c : Char) : Bool :=
  decide ((0x3040 ≤ c.toNat ∧ c.toNat ≤ 0x30ff) ∨ (0x3400 ≤ c.toNat ∧ c.toNat ≤ 0x9fff))

/-- `_has_japanese_chars`: the regex search succeeds somewhere in the string. -/
def hasJapanese (s : String) : Bool := s.data.any isJpChar

/-- Regex `[A-Za-z]` on one character. -/
def isLatinChar (c : Char) : Bool :=
  decide ((0x41 ≤ c.toNat ∧ c.toNat ≤ 0x5a) ∨ (0x61 ≤ c.toNat ∧ c.toNat ≤ 0x7a))

def hasLatin (s : String) : Bool := s.data.any isLatinChar

/-- Regex `[a-z]` on one character. -/
def isLowerChar (c : Char) : Bool := decide (0x61 ≤ c.toNat ∧ c.toNat ≤ 0x7a)

def hasLowerAscii (s : String) : Bool := s.data.any isLowerChar

/-- Python `str.lower()`, modelled on the ASCII range (the script only
lowercases to compare against ASCII header labels). -/
def lowerChar (c : Char) : Char :=
  if 0x41 ≤ c.toNat ∧ c.toNat ≤ 0x5a then Char.ofNat (c.toNat + 32) else c

def asciiLower (s : String) : String := ⟨s.data.map lowerChar⟩

/-- Boolean prefix test on character lists. -/
def prefB : List Char → List Char → Bool
  | [], _ => true
  | _ :: _, [] => false
  | a :: as, b :: bs => a == b && prefB as bs

def substrAux (p : List Char) : List Char → Bool
  | [] => p.isEmpty
  | c :: rest => prefB p (c :: rest) || substrAux p rest

/-- Python `pat in s` substring test. -/
def isSubstrOf (pat s : String) : Bool := substrAux pat.data s.data

/-- The closed set of exact header labels (`header_words` in the source). -/
def headerWords : List String :=
  ["word", "words", "surface", "expression", "lexeme", "lemma", "lemmas",
    "dictform", "dict_form", "dictionaryform"]

/-- The header-ish substrings searched for in the lowercased first cell. -/
def headerKeywords : List String :=
  ["word", "surface", "expression", "lexeme", "lemma", "morph", "dictform",
    "dict_form", "hascard", "reading", "translation"]

/-- Branch 3 of the classifier: the lowercased first cell contains an ASCII
lowercase letter and one of the header keywords as a substring. -/
def keywordHeaderTest (first_lc : String) : Bool :=
  hasLowerAscii first_lc && headerKeywords.any fun k => isSubstrOf k first_lc

/-- `r[0] if r else ""`. -/
def headCell (r : List String) : String := r.headD ""

/-- `" ".join(str(x or "") for x in r[1:])`, normalized (the `rest` value of
the classifier's multi-column branch). -/
def rowRest (nfc : List Char → List Char) (r : List String) : String :=
  normSurface nfc (String.intercalate " " (r.drop 1))

/-- `_next_nonempty_first`: first non-empty normalized first cell of the
given row suffix, else the empty string. -/
def nextNEAux (nfc : List Char → List Char) : List (List String) → String
  | [] => ""
  | r :: rs =>
    let cell := normSurface nfc (headCell r)
    if cell = "" then nextNEAux nfc rs else cell

def nextNonemptyFirst (nfc : List Char → List Char) (rows : List (List String))
    (start : Nat) : String :=
  nextNEAux nfc (rows.drop start)

/-- `_looks_like_header_row`: the heuristic header-vs-data decision for the
row at `idx` (the caller only calls it with `idx < rows.length`). -/
def looksLikeHeaderRow (nfc : List Char → List Char) (rows : List (List String))
    (idx : Nat) : Bool :=
  let r := rows.getD idx []
  let first := normSurface nfc (headCell r)
  if first = "" then false
  else
    let first_lc := asciiLower first
    if headerWords.contains first_lc then true
    else if keywordHeaderTest first_lc then true
    else if decide (1 < r.length) &&
        (hasLatin first && hasLatin (rowRest nfc r) &&
          !hasJapanese first && !hasJapanese (rowRest nfc r)) then true
    else if hasLatin first && !hasJapanese first &&
        (let nx := nextNonemptyFirst nfc rows (idx + 1)
         !(nx == "") && hasJapanese nx) then true
    else false

/-- The `while` loop advancing `start_idx` over leading header rows; the
fuel starts at `rows.length`, which bounds the number of iterations. -/
def headerStartAux (nfc : List Char → List Char) (rows : List (List String)) :
    Nat → Nat → Nat
  | 0, i => i
  | fuel + 1, i =>
    if decide (i < rows.length) && looksLikeHeaderRow nfc rows i then
      headerStartAux nfc rows fuel (i + 1)
    else i

def headerStart (nfc : List Char → List Char) (rows : List (List String)) : Nat :=
  headerStartAux nfc rows rows.length 0

/-- `_csv_surfaces` after CSV decoding: raw row count and the ordered list
of non-empty normalized first cells after the leading header rows. -/
def csv_surfaces (nfc : List Char → List Char) (rows : List (List String)) :
    Nat × List String :=
  if rows = [] then (0, [])
  else
    let start := headerStart nfc rows
    (rows.length,
      (rows.drop start).filterMap fun row =>
        let s := normSurface nfc (headCell row)
        if s = "" then none else some s)

/-- `_csv_summary`: line count, surface count, distinct surface count. -/
def csv_summary (nfc : List Char → List Char) (rows : List (List String)) :
    Nat × Nat × Nat :=
  let r := csv_surfaces nfc rows
  (r.1, r.2.length, r.2.toFinset.card)

/-- One step of `_csv_union_unique_surfaces`: an unreadable file
(`except Exception: continue`) leaves the set unchanged. -/
def unionStep (nfc : List Char → List Char) (acc : Finset String) :
    Option (List (List String)) → Finset String
  | none => acc
  | some rows => acc ∪ ((csv_surfaces nfc rows).2).toFinset

/-- `_csv_union_unique_surfaces`: size of the set union of surfaces over the
given files, skipping files whose read/parse raises. -/
def csv_union_unique (nfc : List Char → List Char)
    (files : List (Option (List (List String)))) : Nat :=
  (files.foldl (unionStep nfc) ∅).card

/-- A JSON value as decoded by `json.loads` (numeric literals modelled as
integers). -/
inductive JVal where
  | jnull : JVal
  | jbool : Bool → JVal
  | jint : Int → JVal
  | jstr : String → JVal
  | jarr : List JVal → JVal
  | jobj : List (String × JVal) → JVal

/-- Outcome of reading and decoding `config.json`: the read raised, the
decode raised, or a decoded value. -/
inductive CfgRead where
  | unreadable : CfgRead
  | invalid : CfgRead
  | parsed : JVal → CfgRead

/-- Python `dict.get` on a decoded object; on duplicate keys `json.loads`
keeps the last occurrence. -/
def dictGet (kvs : List (String × JVal)) (k : String) : Option JVal :=
  (kvs.reverse.find? fun kv => kv.1 == k).map fun kv => kv.2

mutual
/-- Python `repr` of a decoded JSON value (string escaping beyond the
surrounding quotes is not modelled; the script only tests emptiness after
stripping). -/
def pyReprJ : JVal → String
  | .jnull => "None"
  | .jbool true => "True"
  | .jbool false => "False"
  | .jint n => toString n
  | .jstr s => "\x27" ++ s ++ "\x27"
  | .jarr xs => "[" ++ pyReprArr xs ++ "]"
  | .jobj kvs => "\x7b" ++ pyReprObj kvs ++ "\x7d"

def pyReprArr : List JVal → String
  | [] => ""
  | [x] => pyReprJ x
  | x :: y :: xs => pyReprJ x ++ ", " ++ pyReprArr (y :: xs)

def pyReprObj : List (String × JVal) → String
  | [] => ""
  | [kv] => "\x27" ++ kv.1 ++ "\x27: " ++ pyReprJ kv.2
  | kv :: kv2 :: xs => "\x27" ++ kv.1 ++ "\x27: " ++ pyReprJ kv.2 ++ ", " ++ pyReprObj (kv2 :: xs)
end

/-- Python `str(prof)` where `prof` is `parsed.get("anki_profile")`: a
missing key is Python `None`, whose stringification is the word `None`. -/
def pyStrJ : Option JVal → String
  | none => "None"
  | some .jnull => "None"
  | some (.jbool true) => "True"
  | some (.jbool false) => "False"
  | some (.jint n) => toString n
  | some (.jstr s) => s
  | some (.jarr xs) => pyReprJ (.jarr xs)
  | some (.jobj kvs) => pyReprJ (.jobj kvs)

/-- `_load_anki_profile` after the file read and JSON decode. -/
def load_anki_profile : CfgRead → String
  | .unreadable => "User 1"
  | .invalid => "User 1"
  | .parsed v =>
    match v with
    | .jobj kvs =>
      let s := stripStr (pyStrJ (dictGet kvs "anki_profile"))
      if s = "" then "User 1" else s
    | _ => "User 1"

def digitVal (c : Char) : Option Nat :=
  if 0x30 ≤ c.toNat ∧ c.toNat ≤ 0x39 then some (c.toNat - 0x30) else none

def digitsValAux : Nat → List Char → Option Nat
  | acc, [] => some acc
  | acc, c :: cs =>
    match digitVal c with
    | some d => digitsValAux (acc * 10 + d) cs
    | none => none

/-- Python `int(s)` for strings: strip whitespace, optional sign, ASCII
digits (digit-group underscores and non-ASCII digits are not modelled). -/
def parseIntPy (s : String) : Option Int :=
  match stripWs s.data with
  | [] => none
  | '+' :: rest =>
    match rest with
    | [] => none
    | _ :: _ => (digitsValAux 0 rest).map fun n => (n : Int)
  | '-' :: rest =>
    match rest with
    | [] => none
    | _ :: _ => (digitsValAux 0 rest).map fun n => -(n : Int)
  | c :: rest => (digitsValAux 0 (c :: rest)).map fun n => (n : Int)

/-- Python `int(v)` on a decoded JSON value (or `None` for a missing key):
`none` models the `TypeError`/`ValueError` caught by the script. -/
def pyToInt : Option JVal → Option Int
  | none => none
  | some .jnull => none
  | some (.jbool b) => some (if b then 1 else 0)
  | some (.jint n) => some n
  | some (.jstr s) => parseIntPy s
  | some (.jarr _) => none
  | some (.jobj _) => none

/-- The body of `_load_ankimorphs_known_interval` from the `ankimorphs`
entry on: a non-dict entry gives 21; otherwise `int()` conversion of
`known_interval_days` with fallback 21, then the positivity guard. -/
def intervalFromAnkimorphs : Option JVal → Int
  | some (.jobj akvs) =>
    let n := (pyToInt (dictGet akvs "known_interval_days")).getD 21
    if 0 < n then n else 21
  | _ => 21

/-- `_load_ankimorphs_known_interval` after the file read and JSON decode. -/
def load_ankimorphs_known_interval : CfgRead → Int
  | .unreadable => 21
  | .invalid => 21
  | .parsed v =>
    match v with
    | .jobj kvs => intervalFromAnkimorphs (dictGet kvs "ankimorphs")
    | _ => 21

/-- One row of the external AnkiMorphs `Morphs` table. -/
structure Morph where
  lem : String
  inflection : String
  interval : Int
deriving DecidableEq

/-- `SELECT COUNT(*) FROM Morphs WHERE highest_inflection_learning_interval >= t`. -/
def morphRowCount (t : Int) (ms : List Morph) : Nat :=
  (ms.filter fun m => decide (t ≤ m.interval)).length

/-- `SELECT COUNT(DISTINCT lemma) FROM Morphs WHERE ... >= t`. -/
def morphLemmaCount (t : Int) (ms : List Morph) : Nat :=
  (((ms.filter fun m => decide (t ≤ m.interval)).map Morph.lem).toFinset).card

/-- `SELECT COUNT(DISTINCT inflection) FROM Morphs WHERE ... >= t`. -/
def morphInflectionCount (t : Int) (ms : List Morph) : Nat :=
  (((ms.filter fun m => decide (t ≤ m.interval)).map Morph.inflection).toFinset).card

/-- The three-way join `lexemes ⋈ lexeme_lemmas ⋈ lemmas`, as the list of
`(normalized_surface, lemma)` pairs, one per matching row triple.  The
tables are `lexemes(id, normalized_surface)`, `lemmas(id, lemma)` and
`lexeme_lemmas(lexeme_id, lemma_id)`. -/
def joinPairs (lex lems : List (Nat × String)) (ll : List (Nat × Nat)) :
    List (String × String) :=
  lex.flatMap fun l =>
    (ll.filter fun a => a.1 == l.1).flatMap fun a =>
      (lems.filter fun m => m.1 == a.2).map fun m => (l.2, m.2)

/-- The join rows with `l.normalized_surface != le.lemma`. -/
def changedPairs (lex lems : List (Nat × String)) (ll : List (Nat × Nat)) :
    List (String × String) :=
  (joinPairs lex lems ll).filter fun p => !(p.1 == p.2)

/-- `tokei_changed_surface_count`: `COUNT(*)` over the join rows whose
surface differs from the joined lemma. -/
def tokei_changed_surface_count (lex lems : List (Nat × String))
    (ll : List (Nat × Nat)) : Nat :=
  (changedPairs lex lems ll).length

/-- `tokei_collision_lemma_count`: number of distinct lemma texts that are
the join target of more than one distinct surface (`GROUP BY le.lemma
HAVING COUNT(DISTINCT l.normalized_surface) > 1`). -/
def tokei_collision_lemma_count (lex lems : List (Nat × String))
    (ll : List (Nat × Nat)) : Nat :=
  (((joinPairs lex lems ll).map Prod.snd).toFinset.filter fun m =>
    1 < (((joinPairs lex lems ll).filter fun p => p.2 == m).map Prod.fst).toFinset.card).card

/-- Scenario A input `a.csv`: rows `["word"], ["学校"], ["食べる"]`. -/
def aRows : List (List String) := [["word"], ["学校"], ["食べる"]]

/-- Scenario A input `b.csv`: rows `["食べる"], ["走る"]`. -/
def bRows : List (List String) := [["食べる"], ["走る"]]

/-- Scenario C `lexemes` table. -/
def lexC : List (Nat × String) := [(1, "走る"), (2, "走った")]

/-- Scenario C `lemmas` table. -/
def lemsC : List (Nat × String) := [(1, "走る")]

/-- Scenario C `lexeme_lemmas` table. -/
def llC : List (Nat × Nat) := [(1, 1), (2, 1)]

theorem dw_head_not {α : Type} {p : α → Bool} :
    ∀ (l : List α) (d : α), (l.dropWhile p).head? = some d → p d = false := by
  intro l
  induction l with
  | nil =>
    intro d h
    simp only [List.dropWhile_nil, List.head?_nil] at h
    exact Option.noConfusion h
  | cons c cs ih =>
    intro d h
    rw [List.dropWhile_cons] at h
    cases hc : p c with
    | true => rw [hc] at h; simp only [if_true] at h; exact ih d h
    | false =>
      rw [hc] at h
      simp only [Bool.false_eq_true, if_false, List.head?_cons, Option.some.injEq] at h
      subst h; exact hc

theorem dw_eq_self {α : Type} {p : α → Bool} (l : List α)
    (h : ∀ d, l.head? = some d → p d = false) : l.dropWhile p = l := by
  cases l with
  | nil => rfl
  | cons c cs => rw [List.dropWhile_cons, h c rfl]; simp

theorem dw_nil_of_all {α : Type} {p : α → Bool} :
    ∀ (l : List α), (∀ c ∈ l, p c = true) → l.dropWhile p = [] := by
  intro l
  induction l with
  | nil => intro _; rfl
  | cons c cs ih =>
    intro h
    rw [List.dropWhile_cons, h c (List.mem_cons_self c cs)]
    simp only [if_true]
    exact ih fun x hx => h x (List.mem_cons_of_mem c hx)

theorem dw_mem_of {α : Type} {p : α → Bool} {c : α} :
    ∀ {l : List α}, c ∈ l → p c = false → c ∈ l.dropWhile p := by
  intro l
  induction l with
  | nil => intro h _; exact absurd h (List.not_mem_nil c)
  | cons a l ih =>
    intro hm hc
    rw [List.dropWhile_cons]
    rcases List.mem_cons.mp hm with rfl | hm
    · rw [hc]; simp
    · cases ha : p a with
      | true => simp only [if_true]; exact ih hm hc
      | false =>
        simp only [Bool.false_eq_true, if_false]
        exact List.mem_cons_of_mem a hm

theorem getLastq_cons_ne {α : Type} (a : α) {l : List α} (h : l ≠ []) :
    (a :: l).getLast? = l.getLast? := by
  cases l with
  | nil => exact absurd rfl h
  | cons x xs => exact List.getLast?_cons_cons

theorem getLastq_mem {α : Type} : ∀ {l : List α} {d : α}, l.getLast? = some d → d ∈ l := by
  intro l
  induction l with
  | nil => intro d h; simp at h
  | cons c cs ih =>
    intro d h
    cases cs with
    | nil => simp at h; subst h; exact List.mem_singleton_self c
    | cons x xs =>
      rw [List.getLast?_cons_cons] at h
      exact List.mem_cons_of_mem c (ih h)

theorem dtw_last_not_ws : ∀ (l : List Char) (d : Char),
    (dropTrailWs l).getLast? = some d → isWs d = false := by
  intro l
  induction l with
  | nil => intro d h; simp [dropTrailWs] at h
  | cons c cs ih =>
    intro d h
    simp only [dropTrailWs] at h
    by_cases hcond : ((dropTrailWs cs).isEmpty && isWs c) = true
    · rw [if_pos hcond] at h; simp at h
    · rw [if_neg hcond] at h
      cases hr : dropTrailWs cs with
      | nil =>
        rw [hr] at h
        simp only [List.getLast?_singleton, Option.some.injEq] at h
        subst h
        rw [hr] at hcond
        simp only [List.isEmpty_nil, Bool.true_and] at hcond
        simpa using hcond
      | cons x xs =>
        rw [hr, List.getLast?_cons_cons] at h
        exact ih d (by rw [hr]; exact h)

theorem dtw_eq_self : ∀ (l : List Char),
    (∀ d, l.getLast? = some d → isWs d = false) → dropTrailWs l = l := by
  intro l
  induction l with
  | nil => intro _; rfl
  | cons c cs ih =>
    intro h
    simp only [dropTrailWs]
    cases cs with
    | nil =>
      have hc : isWs c = false := h c rfl
      simp [dropTrailWs, hc]
    | cons x xs =>
      have hcs : dropTrailWs (x :: xs) = x :: xs :=
        ih fun d hd => h d (by rw [List.getLast?_cons_cons]; exact hd)
      rw [hcs]
      simp

theorem dtw_shape : ∀ (l : List Char),
    dropTrailWs l = [] ∨ (dropTrailWs l).head? = l.head? := by
  intro l
  cases l with
  | nil => exact Or.inl rfl
  | cons c cs =>
    simp only [dropTrailWs]
    by_cases hcond : ((dropTrailWs cs).isEmpty && isWs c) = true
    · rw [if_pos hcond]; exact Or.inl rfl
    · rw [if_neg hcond]; exact Or.inr rfl

theorem dtw_mem_of : ∀ (l : List Char) {c : Char}, c ∈ l → isWs c = false →
    c ∈ dropTrailWs l := by
  intro l
  induction l with
  | nil => intro c h _; exact absurd h (List.not_mem_nil c)
  | cons a l ih =>
    intro c hm hc
    simp only [dropTrailWs]
    rcases List.mem_cons.mp hm with rfl | hm
    · have hcond : ¬(((dropTrailWs l).isEmpty && isWs c) = true) := by
        simp [hc]
      rw [if_neg hcond]
      exact List.mem_cons_self c _
    · have hmem : c ∈ dropTrailWs l := ih hm hc
      have hne : (dropTrailWs l).isEmpty = false := by
        cases he : dropTrailWs l with
        | nil => rw [he] at hmem; exact absurd hmem (List.not_mem_nil c)
        | cons x xs => rfl
      rw [if_neg (by simp [hne])]
      exact List.mem_cons_of_mem a hmem

theorem strip_head_not_ws (l : List Char) :
    ∀ d, (stripWs l).head? = some d → isWs d = false := by
  intro d h
  unfold stripWs at h
  rcases dtw_shape (l.dropWhile isWs) with h0 | h0
  · rw [h0] at h; exact Option.noConfusion h
  · rw [h0] at h; exact dw_head_not _ d h

theorem strip_last_not_ws (l : List Char) :
    ∀ d, (stripWs l).getLast? = some d → isWs d = false :=
  dtw_last_not_ws _

theorem strip_eq_self_of (l : List Char)
    (h1 : ∀ d, l.head? = some d → isWs d = false)
    (h2 : ∀ d, l.getLast? = some d → isWs d = false) : stripWs l = l := by
  unfold stripWs
  rw [dw_eq_self l h1]
  exact dtw_eq_self l h2

theorem strip_idem (l : List Char) : stripWs (stripWs l) = stripWs l :=
  strip_eq_self_of _ (strip_head_not_ws l) (strip_last_not_ws l)

theorem strip_nil_of_allws (l : List Char) (h : ∀ c ∈ l, isWs c = true) :
    stripWs l = [] := by
  unfold stripWs
  rw [dw_nil_of_all l h]
  rfl

theorem strip_mem_of {c : Char} {l : List Char} (h1 : c ∈ l) (h2 : isWs c = false) :
    c ∈ stripWs l :=
  dtw_mem_of _ (dw_mem_of h1 h2) h2

theorem collapse_ws_mem_space : ∀ (l : List Char) (b : Bool) (d : Char),
    d ∈ collapseAux b l → isWs d = true → d = ' ' := by
  intro l
  induction l with
  | nil => intro b d hd _; exact absurd hd (List.not_mem_nil d)
  | cons c cs ih =>
    intro b d hd hw
    simp only [collapseAux] at hd
    cases hc : isWs c with
    | true =>
      rw [hc] at hd
      simp only [if_true] at hd
      cases b with
      | true => exact ih true d hd hw
      | false =>
        rcases List.mem_cons.mp hd with rfl | hd
        · rfl
        · exact ih true d hd hw
    | false =>
      rw [hc] at hd
      simp only [Bool.false_eq_true, if_false] at hd
      rcases List.mem_cons.mp hd with rfl | hd
      · rw [hw] at hc; exact Bool.noConfusion hc
      · exact ih false d hd hw

theorem collapse_head_true_not_ws : ∀ (l : List Char) (d : Char),
    (collapseAux true l).head? = some d → isWs d = false := by
  intro l
  induction l with
  | nil => intro d h; exact Option.noConfusion h
  | cons c cs ih =>
    intro d h
    simp only [collapseAux] at h
    cases hc : isWs c with
    | true => rw [hc] at h; simp only [if_true] at h; exact ih d h
    | false =>
      rw [hc] at h
      simp only [Bool.false_eq_true, if_false, List.head?_cons, Option.some.injEq] at h
      subst h; exact hc

theorem collapse_mem_of : ∀ (l : List Char) (b : Bool) {c : Char},
    c ∈ l → isWs c = false → c ∈ collapseAux b l := by
  intro l
  induction l with
  | nil => intro b c h _; exact absurd h (List.not_mem_nil c)
  | cons a l ih =>
    intro b c hm hc
    simp only [collapseAux]
    rcases List.mem_cons.mp hm with rfl | hm
    · rw [hc]
      simp only [Bool.false_eq_true, if_false]
      exact List.mem_cons_self c _
    · cases ha : isWs a with
      | true =>
        simp only [if_true]
        cases b with
        | true => exact ih true hm hc
        | false => exact List.mem_cons_of_mem _ (ih true hm hc)
      | false =>
        simp only [Bool.false_eq_true, if_false]
        exact List.mem_cons_of_mem a (ih false hm hc)

theorem collapseAux_cons_ws_true {c : Char} (cs : List Char) (hc : isWs c = true) :
    collapseAux true (c :: cs) = collapseAux true cs := by
  simp only [collapseAux, hc, if_true]

theorem collapseAux_cons_ws_false {c : Char} (cs : List Char) (hc : isWs c = true) :
    collapseAux false (c :: cs) = ' ' :: collapseAux true cs := by
  simp only [collapseAux, hc, if_true, Bool.false_eq_true, if_false]

theorem collapseAux_cons_nonws (b : Bool) {c : Char} (cs : List Char) (hc : isWs c = false) :
    collapseAux b (c :: cs) = c :: collapseAux false cs := by
  simp only [collapseAux, hc, Bool.false_eq_true, if_false]

theorem collapse_chain : ∀ (l : List Char) (b : Bool),
    List.Chain' (fun a d => ¬(isWs a = true ∧ isWs d = true)) (collapseAux b l) := by
  intro l
  induction l with
  | nil => intro b; exact List.chain'_nil
  | cons c cs ih =>
    intro b
    cases hc : isWs c with
    | true =>
      cases b with
      | true => rw [collapseAux_cons_ws_true cs hc]; exact ih true
      | false =>
        rw [collapseAux_cons_ws_false cs hc, List.chain'_cons']
        refine ⟨?_, ih true⟩
        intro d hd hcon
        have := collapse_head_true_not_ws cs d hd
        rw [hcon.2] at this
        exact Bool.noConfusion this
    | false =>
      rw [collapseAux_cons_nonws b cs hc, List.chain'_cons']
      refine ⟨?_, ih false⟩
      intro d _ hcon
      rw [hcon.1] at hc
      exact Bool.noConfusion hc

theorem collapse_true_eq_false_of_head (l : List Char)
    (h : ∀ d, l.head? = some d → isWs d = false) :
    collapseAux true l = collapseAux false l := by
  cases l with
  | nil => rfl
  | cons c cs =>
    have hc : isWs c = false := h c rfl
    rw [collapseAux_cons_nonws true cs hc, collapseAux_cons_nonws false cs hc]

theorem collapse_fix : ∀ (l : List Char),
    (∀ d ∈ l, isWs d = true → d = ' ') →
    List.Chain' (fun a d => ¬(isWs a = true ∧ isWs d = true)) l →
    collapseAux false l = l := by
  intro l
  induction l with
  | nil => intro _ _; rfl
  | cons c cs ih =>
    intro hall hch
    have ihcs : collapseAux false cs = cs :=
      ih (fun d hd => hall d (List.mem_cons_of_mem c hd)) hch.tail
    cases hc : isWs c with
    | false => rw [collapseAux_cons_nonws false cs hc, ihcs]
    | true =>
      have hsp : c = ' ' := hall c (List.mem_cons_self c cs) hc
      have hhead : ∀ d, cs.head? = some d → isWs d = false := by
        intro d hd
        cases cs with
        | nil => exact Option.noConfusion hd
        | cons x xs =>
          simp only [List.head?_cons, Option.some.injEq] at hd
          subst hd
          rw [List.chain'_cons] at hch
          by_contra hx
          exact hch.1 ⟨hc, by simpa using hx⟩
      rw [collapseAux_cons_ws_false cs hc, collapse_true_eq_false_of_head cs hhead,
        ihcs, hsp]

theorem collapse_idem (l : List Char) : collapseWs (collapseWs l) = collapseWs l :=
  collapse_fix _ (fun d hd => collapse_ws_mem_space l false d hd) (collapse_chain l false)

theorem collapse_head_of (l : List Char) (h : ∀ d, l.head? = some d → isWs d = false) :
    (collapseWs l).head? = l.head? := by
  cases l with
  | nil => rfl
  | cons c cs =>
    have hc : isWs c = false := h c rfl
    rw [collapseWs, collapseAux_cons_nonws false cs hc]
    rfl

theorem collapse_last_not_ws : ∀ (l : List Char) (b : Bool),
    (∀ d, l.getLast? = some d → isWs d = false) →
    ∀ d, (collapseAux b l).getLast? = some d → isWs d = false := by
  intro l
  induction l with
  | nil => intro b _ d h; exact Option.noConfusion h
  | cons c cs ih =>
    intro b hl d h
    cases cs with
    | nil =>
      have hc : isWs c = false := hl c rfl
      rw [collapseAux_cons_nonws b [] hc] at h
      simp only [collapseAux, List.getLast?_singleton, Option.some.injEq] at h
      subst h; exact hc
    | cons x xs =>
      have hl' : ∀ d, (x :: xs).getLast? = some d → isWs d = false := by
        intro e he
        exact hl e (by rw [List.getLast?_cons_cons]; exact he)
      obtain ⟨e, he⟩ : ∃ e, (x :: xs).getLast? = some e := by
        cases hx : (x :: xs).getLast? with
        | none => simp at hx
        | some e => exact ⟨e, rfl⟩
      have hemem : e ∈ x :: xs := getLastq_mem he
      have hews : isWs e = false := hl' e he
      have hne : collapseAux true (x :: xs) ≠ [] :=
        List.ne_nil_of_mem (collapse_mem_of _ true hemem hews)
      have hnef : collapseAux false (x :: xs) ≠ [] :=
        List.ne_nil_of_mem (collapse_mem_of _ false hemem hews)
      cases hc : isWs c with
      | true =>
        cases b with
        | true =>
          rw [collapseAux_cons_ws_true (x :: xs) hc] at h
          exact ih true hl' d h
        | false =>
          rw [collapseAux_cons_ws_false (x :: xs) hc,
            getLastq_cons_ne ' ' hne] at h
          exact ih true hl' d h
      | false =>
        rw [collapseAux_cons_nonws b (x :: xs) hc,
          getLastq_cons_ne c hnef] at h
        exact ih false hl' d h

theorem strip_fix_collapse (u : List Char) (h : stripWs u = u) :
    stripWs (collapseWs u) = collapseWs u := by
  have hhead : ∀ d, u.head? = some d → isWs d = false := by
    intro d hd
    exact strip_head_not_ws u d (by rw [h]; exact hd)
  have hlast : ∀ d, u.getLast? = some d → isWs d = false := by
    intro d hd
    exact strip_last_not_ws u d (by rw [h]; exact hd)
  apply strip_eq_self_of
  · intro d hd
    rw [collapse_head_of u hhead] at hd
    exact hhead d hd
  · exact collapse_last_not_ws u false hlast

theorem normData_idem (nfc : List Char → List Char) (h : NFCLike nfc) (l : List Char) :
    collapseWs (nfc (stripWs (collapseWs (nfc (stripWs l))))) =
      collapseWs (nfc (stripWs l)) := by
  have hufix : stripWs (stripWs l) = stripWs l := strip_idem l
  calc collapseWs (nfc (stripWs (collapseWs (nfc (stripWs l)))))
      = collapseWs (nfc (stripWs (nfc (collapseWs (stripWs l))))) := by
        rw [h.collapse_comm]
    _ = collapseWs (nfc (nfc (stripWs (collapseWs (stripWs l))))) := by
        rw [← h.strip_comm]
    _ = collapseWs (nfc (stripWs (collapseWs (stripWs l)))) := by
        rw [h.idem]
    _ = collapseWs (nfc (collapseWs (stripWs l))) := by
        rw [strip_fix_collapse (stripWs l) hufix]
    _ = collapseWs (collapseWs (nfc (stripWs l))) := by
        rw [h.collapse_comm]
    _ = collapseWs (nfc (stripWs l)) := collapse_idem _

/-- The identity function has every `NFCLike` property (it is the behaviour
of NFC on inputs that are already canonically composed). -/
theorem nfcLikeId : NFCLike id :=
  ⟨fun _ => rfl, rfl, fun _ => rfl, fun _ => rfl, fun _ h => h⟩

/-- C3: the surface normalizer is idempotent: for every string `s` and every
function `nfc` with the `NFCLike` properties of Unicode canonical
composition, `normalize (normalize s) = normalize s`. -/
theorem c3_normalizer_idempotent (nfc : List Char → List Char) (h : NFCLike nfc)
    (s : String) : normSurface nfc (normSurface nfc s) = normSurface nfc s :=
  congrArg String.mk (normData_idem nfc h s.data)

/-- C3 witness at `nfc = id` and a concrete string. -/
theorem c3_witness :
    NFCLike id ∧ normSurface id (normSurface id " a  b ") = normSurface id " a  b " :=
  ⟨nfcLikeId, c3_normalizer_idempotent id nfcLikeId " a  b "⟩

/-- C9: the normalizer returns the empty string iff its input is empty or
all-whitespace; on any input with a non-whitespace character the result is
non-empty, strip-fixed (no leading or trailing whitespace), and has no two
adjacent whitespace characters. -/
theorem c9_normalizer_empty_iff (nfc : List Char → List Char) (h : NFCLike nfc)
    (s : String) :
    (normSurface nfc s = "" ↔ ∀ c ∈ s.data, isWs c = true) ∧
    ((∃ c ∈ s.data, isWs c = false) →
      normSurface nfc s ≠ "" ∧
      stripWs (normSurface nfc s).data = (normSurface nfc s).data ∧
      List.Chain' (fun a d => ¬(isWs a = true ∧ isWs d = true))
        (normSurface nfc s).data) := by
  have hdata : (normSurface nfc s).data = collapseWs (nfc (stripWs s.data)) := rfl
  have hne : (∃ c ∈ s.data, isWs c = false) → (normSurface nfc s).data ≠ [] := by
    rintro ⟨c, hc, hw⟩
    have h1 : c ∈ stripWs s.data := strip_mem_of hc hw
    obtain ⟨d, hd, hdw⟩ := h.keeps_nonws (stripWs s.data) ⟨c, h1, hw⟩
    have h2 : d ∈ collapseWs (nfc (stripWs s.data)) := collapse_mem_of _ false hd hdw
    rw [hdata]
    exact List.ne_nil_of_mem h2
  have hwfix : stripWs (nfc (stripWs s.data)) = nfc (stripWs s.data) := by
    have hcomm := h.strip_comm (stripWs s.data)
    rw [strip_idem] at hcomm
    exact hcomm.symm
  refine ⟨⟨?_, ?_⟩, ?_⟩
  · intro hempty
    by_contra hx
    push_neg at hx
    obtain ⟨c, hc, hcw⟩ := hx
    have : (normSurface nfc s).data ≠ [] := hne ⟨c, hc, Bool.not_eq_true _ ▸ hcw⟩
    exact this (by rw [hempty])
  · intro hall
    apply String.ext
    rw [hdata, strip_nil_of_allws _ hall, h.nil]
    rfl
  · intro hex
    refine ⟨?_, ?_, ?_⟩
    · intro heq
      exact hne hex (by rw [heq])
    · rw [hdata]
      exact strip_fix_collapse _ hwfix
    · rw [hdata]
      exact collapse_chain _ false
/-- C9 witness at `nfc = id` and a concrete string. -/
theorem c9_witness :
    (∃ c ∈ (" a  b " : String).data, isWs c = false) ∧
    (normSurface id " a  b " = "" ↔ ∀ c ∈ (" a  b " : String).data, isWs c = true) ∧
    normSurface id " a  b " ≠ "" ∧
    stripWs (normSurface id " a  b ").data = (normSurface id " a  b ").data ∧
    List.Chain' (fun a d => ¬(isWs a = true ∧ isWs d = true))
      (normSurface id " a  b ").data := by
  have hex : ∃ c ∈ (" a  b " : String).data, isWs c = false := by decide
  obtain ⟨h1, h2⟩ := c9_normalizer_empty_iff id nfcLikeId " a  b "
  obtain ⟨h3, h4, h5⟩ := h2 hex
  exact ⟨hex, h1, h3, h4, h5⟩

/-- C10: for every spreadsheet, `distinct_surface_count ≤ surface_count ≤
raw_row_count` in the summary triple. -/
theorem c10_summary_counts (nfc : List Char → List Char) (rows : List (List String)) :
    (csv_summary nfc rows).2.2 ≤ (csv_summary nfc rows).2.1 ∧
    (csv_summary nfc rows).2.1 ≤ (csv_summary nfc rows).1 := by
  have h1 : (csv_summary nfc rows).2.2 = ((csv_surfaces nfc rows).2).toFinset.card := rfl
  have h2 : (csv_summary nfc rows).2.1 = ((csv_surfaces nfc rows).2).length := rfl
  have h3 : (csv_summary nfc rows).1 = (csv_surfaces nfc rows).1 := rfl
  rw [h1, h2, h3]
  constructor
  · exact List.toFinset_card_le _
  · by_cases h : rows = []
    · subst h; simp [csv_surfaces]
    · have h4 : (csv_surfaces nfc rows).2 =
          (rows.drop (headerStart nfc rows)).filterMap (fun row =>
            let s := normSurface nfc (headCell row)
            if s = "" then none else some s) := by
        unfold csv_surfaces
        rw [if_neg h]
      have h5 : (csv_surfaces nfc rows).1 = rows.length := by
        unfold csv_surfaces
        rw [if_neg h]
      rw [h4, h5]
      calc ((rows.drop (headerStart nfc rows)).filterMap _).length
          ≤ (rows.drop (headerStart nfc rows)).length := List.length_filterMap_le _ _
        _ ≤ rows.length := by rw [List.length_drop]; omega

/-- C5: raising the interval threshold never increases the filtered row
count, distinct-lemma count, or distinct-inflection count. -/
theorem c5_threshold_monotone (ms : List Morph) (t1 t2 : Int) (h : t1 ≤ t2) :
    morphRowCount t2 ms ≤ morphRowCount t1 ms ∧
    morphLemmaCount t2 ms ≤ morphLemmaCount t1 ms ∧
    morphInflectionCount t2 ms ≤ morphInflectionCount t1 ms := by
  have hsub : List.Sublist (ms.filter fun m => decide (t2 ≤ m.interval))
      (ms.filter fun m => decide (t1 ≤ m.interval)) := by
    apply List.monotone_filter_right
    intro m hm
    simp only [decide_eq_true_eq] at hm ⊢
    omega
  refine ⟨hsub.length_le, ?_, ?_⟩
  · apply Finset.card_le_card
    intro x hx
    rw [List.mem_toFinset] at hx ⊢
    exact (hsub.map Morph.lem).subset hx
  · apply Finset.card_le_card
    intro x hx
    rw [List.mem_toFinset] at hx ⊢
    exact (hsub.map Morph.inflection).subset hx

/-- C5 witness: the scenario-B store (intervals 30, 10, 25 on one lemma)
with thresholds 10 ≤ 21. -/
theorem c5_witness :
    (10 : Int) ≤ 21 ∧
    (morphRowCount 21 [⟨"X", "a", 30⟩, ⟨"X", "b", 10⟩, ⟨"X", "c", 25⟩] ≤
        morphRowCount 10 [⟨"X", "a", 30⟩, ⟨"X", "b", 10⟩, ⟨"X", "c", 25⟩] ∧
      morphLemmaCount 21 [⟨"X", "a", 30⟩, ⟨"X", "b", 10⟩, ⟨"X", "c", 25⟩] ≤
        morphLemmaCount 10 [⟨"X", "a", 30⟩, ⟨"X", "b", 10⟩, ⟨"X", "c", 25⟩] ∧
      morphInflectionCount 21 [⟨"X", "a", 30⟩, ⟨"X", "b", 10⟩, ⟨"X", "c", 25⟩] ≤
        morphInflectionCount 10 [⟨"X", "a", 30⟩, ⟨"X", "b", 10⟩, ⟨"X", "c", 25⟩]) :=
  ⟨by decide, c5_threshold_monotone [⟨"X", "a", 30⟩, ⟨"X", "b", 10⟩, ⟨"X", "c", 25⟩]
    10 21 (by decide)⟩

/-- C7: scenario C — lexemes 走る and 走った both joined to lemma 走る give
one changed join row (the pair 走った → 走る) and one collision lemma. -/
theorem c7_scenarioC :
    tokei_changed_surface_count lexC lemsC llC = 1 ∧
    changedPairs lexC lemsC llC = [("走った", "走る")] ∧
    tokei_collision_lemma_count lexC lemsC llC = 1 := by
  refine ⟨?_, ?_, ?_⟩ <;> decide

/-- C1 counterexample: a parsed `{}` makes the profile loader return the
string `None` (the stringified missing key), not `User 1`; and a JSON
string threshold `"30"` converts via `int()` and is returned as 30, not
replaced by the default 21. -/
theorem c1_counterexample :
    load_anki_profile (.parsed (.jobj [])) = "None" ∧
    load_anki_profile (.parsed (.jobj [])) ≠ "User 1" ∧
    load_ankimorphs_known_interval
      (.parsed (.jobj [("ankimorphs", .jobj [("known_interval_days", .jstr "30")])])) = 30 := by
  refine ⟨?_, ?_, ?_⟩ <;> decide

/-- Helper for C1: the interval value is positive whatever the
`ankimorphs` entry decodes to. -/
theorem interval_pos_helper : ∀ o : Option JVal, 0 < intervalFromAnkimorphs o := by
  intro o
  cases o with
  | none => decide
  | some w =>
    cases w with
    | jnull => decide
    | jbool b => show (0:Int) < 21; decide
    | jint n => show (0:Int) < 21; decide
    | jstr s => show (0:Int) < 21; decide
    | jarr xs => show (0:Int) < 21; decide
    | jobj akvs =>
      simp only [intervalFromAnkimorphs]
      by_cases h : 0 < (pyToInt (dictGet akvs "known_interval_days")).getD 21
      · rw [if_pos h]; exact h
      · rw [if_neg h]; decide

/-- C1 (amended): the loaders return the defaults ("User 1", 21) for
unreadable, undecodable, or non-dict configs; the profile loader returns
"User 1" exactly when the stringified profile entry strips to empty, and
otherwise returns that stripped stringification — in particular the
string "None" when the key is missing; the interval loader returns 21
exactly when `int()` conversion fails or yields a non-positive value,
returns the converted value when it is positive, and its result is always
positive. -/
theorem c1_amended :
    load_anki_profile .unreadable = "User 1" ∧
    load_anki_profile .invalid = "User 1" ∧
    (∀ v : JVal, (∀ kvs, v ≠ JVal.jobj kvs) → load_anki_profile (.parsed v) = "User 1") ∧
    (∀ kvs, stripStr (pyStrJ (dictGet kvs "anki_profile")) = "" →
      load_anki_profile (.parsed (.jobj kvs)) = "User 1") ∧
    (∀ kvs, stripStr (pyStrJ (dictGet kvs "anki_profile")) ≠ "" →
      load_anki_profile (.parsed (.jobj kvs)) =
        stripStr (pyStrJ (dictGet kvs "anki_profile"))) ∧
    (∀ kvs, dictGet kvs "anki_profile" = none →
      load_anki_profile (.parsed (.jobj kvs)) = "None") ∧
    load_ankimorphs_known_interval .unreadable = 21 ∧
    load_ankimorphs_known_interval .invalid = 21 ∧
    (∀ v : JVal, (∀ kvs, v ≠ JVal.jobj kvs) →
      load_ankimorphs_known_interval (.parsed v) = 21) ∧
    (∀ kvs akvs, dictGet kvs "ankimorphs" = some (.jobj akvs) →
      pyToInt (dictGet akvs "known_interval_days") = none →
      load_ankimorphs_known_interval (.parsed (.jobj kvs)) = 21) ∧
    (∀ kvs akvs n, dictGet kvs "ankimorphs" = some (.jobj akvs) →
      pyToInt (dictGet akvs "known_interval_days") = some n → n ≤ 0 →
      load_ankimorphs_known_interval (.parsed (.jobj kvs)) = 21) ∧
    (∀ kvs akvs n, dictGet kvs "ankimorphs" = some (.jobj akvs) →
      pyToInt (dictGet akvs "known_interval_days") = some n → 0 < n →
      load_ankimorphs_known_interval (.parsed (.jobj kvs)) = n) ∧
    (∀ cfg, 0 < load_ankimorphs_known_interval cfg) := by
  refine ⟨rfl, rfl, ?_, ?_, ?_, ?_, rfl, rfl, ?_, ?_, ?_, ?_, ?_⟩
  · intro v hv
    cases v with
    | jnull => rfl
    | jbool b => rfl
    | jint n => rfl
    | jstr s => rfl
    | jarr xs => rfl
    | jobj kvs => exact absurd rfl (hv kvs)
  · intro kvs hempty
    simp only [load_anki_profile]
    rw [if_pos hempty]
  · intro kvs hne
    simp only [load_anki_profile]
    rw [if_neg hne]
  · intro kvs hnone
    simp only [load_anki_profile]
    rw [hnone]
    decide
  · intro v hv
    cases v with
    | jnull => rfl
    | jbool b => rfl
    | jint n => rfl
    | jstr s => rfl
    | jarr xs => rfl
    | jobj kvs => exact absurd rfl (hv kvs)
  · intro kvs akvs hak hpi
    simp only [load_ankimorphs_known_interval]
    rw [hak]
    simp only [intervalFromAnkimorphs]
    rw [hpi]
    decide
  · intro kvs akvs n hak hpi hn
    simp only [load_ankimorphs_known_interval]
    rw [hak]
    simp only [intervalFromAnkimorphs]
    rw [hpi]
    simp only [Option.getD_some]
    rw [if_neg (by omega)]
  · intro kvs akvs n hak hpi hn
    simp only [load_ankimorphs_known_interval]
    rw [hak]
    simp only [intervalFromAnkimorphs]
    rw [hpi]
    simp only [Option.getD_some]
    rw [if_pos hn]
  · intro cfg
    cases cfg with
    | unreadable => decide
    | invalid => decide
    | parsed v =>
      cases v with
      | jnull => decide
      | jbool b => show (0:Int) < 21; decide
      | jint n => show (0:Int) < 21; decide
      | jstr s => show (0:Int) < 21; decide
      | jarr xs => show (0:Int) < 21; decide
      | jobj kvs => exact interval_pos_helper (dictGet kvs "ankimorphs")

theorem union_foldl_acc (nfc : List Char → List Char) :
    ∀ (files : List (Option (List (List String)))) (acc : Finset String),
      files.foldl (unionStep nfc) acc = acc ∪ files.foldl (unionStep nfc) ∅ := by
  intro files
  induction files with
  | nil => intro acc; simp [List.foldl]
  | cons f fs ih =>
    intro acc
    simp only [List.foldl]
    rw [ih (unionStep nfc acc f), ih (unionStep nfc ∅ f)]
    have hstep : unionStep nfc acc f = acc ∪ unionStep nfc ∅ f := by
      cases f with
      | none => simp [unionStep]
      | some rows => simp [unionStep]
    rw [hstep, Finset.union_assoc]

theorem union_foldl_skip (nfc : List Char → List Char) :
    ∀ files : List (Option (List (List String))),
      files.foldl (unionStep nfc) ∅ =
        ((files.filterMap id).map some).foldl (unionStep nfc) ∅ := by
  intro files
  induction files with
  | nil => rfl
  | cons f fs ih =>
    cases f with
    | none =>
      simp only [List.filterMap_cons, id, List.foldl]
      rw [show unionStep nfc ∅ none = ∅ from rfl]
      exact ih
    | some rows =>
      simp only [List.filterMap_cons, id, List.map_cons, List.foldl]
      rw [union_foldl_acc nfc fs, union_foldl_acc nfc ((fs.filterMap id).map some), ih]

theorem union_foldl_flatten (nfc : List Char → List Char) :
    ∀ rs : List (List (List String)),
      (rs.map some).foldl (unionStep nfc) ∅ =
        ((rs.map fun rows => (csv_surfaces nfc rows).2).flatten).toFinset := by
  intro rs
  induction rs with
  | nil => simp
  | cons rows rs ih =>
    simp only [List.map_cons, List.foldl, List.flatten_cons, List.toFinset_append]
    rw [union_foldl_acc nfc (rs.map some), ih]
    simp [unionStep]

/-- C8: an unreadable or unparsable file is skipped: the union count over
any file list equals the union count over just its readable files, which is
the size of the set union of their surfaces. -/
theorem c8_union_skips_unreadable (nfc : List Char → List Char)
    (files : List (Option (List (List String)))) :
    csv_union_unique nfc files = csv_union_unique nfc ((files.filterMap id).map some) ∧
    csv_union_unique nfc files =
      (((files.filterMap id).map fun rows => (csv_surfaces nfc rows).2).flatten).toFinset.card := by
  constructor
  · unfold csv_union_unique
    rw [union_foldl_skip nfc files]
  · unfold csv_union_unique
    rw [union_foldl_skip nfc files, union_foldl_flatten nfc (files.filterMap id)]

theorem foldr_max_le (u : Nat) : ∀ l : List Nat, (∀ x ∈ l, x ≤ u) → l.foldr max 0 ≤ u := by
  intro l
  induction l with
  | nil => intro _; exact Nat.zero_le u
  | cons x l ih =>
    intro h
    simp only [List.foldr]
    exact Nat.max_le.mpr ⟨h x (List.mem_cons_self x l),
      ih fun y hy => h y (List.mem_cons_of_mem x hy)⟩

theorem foldr_max_const (v : Nat) : ∀ l : List Nat, (∀ x ∈ l, x = v) → l ≠ [] →
    l.foldr max 0 = v := by
  intro l
  induction l with
  | nil => intro _ h; exact absurd rfl h
  | cons x l ih =>
    intro h _
    have hx : x = v := h x (List.mem_cons_self x l)
    cases l with
    | nil => simp only [List.foldr, List.foldr_nil]; rw [Nat.max_zero, hx]
    | cons y l' =>
      simp only [List.foldr]
      have : (y :: l').foldr max 0 = v := by
        have := ih (fun z hz => h z (List.mem_cons_of_mem x hz)) (by simp)
        simpa using this
      simp only [List.foldr] at this
      rw [this, hx, Nat.max_self]

theorem union_superset_of_mem (nfc : List Char → List Char)
    {fs : List (List (List String))} {rows : List (List String)} (hm : rows ∈ fs) :
    ((csv_surfaces nfc rows).2).toFinset ⊆ (fs.map some).foldl (unionStep nfc) ∅ := by
  rw [union_foldl_flatten nfc fs]
  intro x hx
  rw [List.mem_toFinset] at hx ⊢
  rw [List.mem_flatten]
  exact ⟨(csv_surfaces nfc rows).2, List.mem_map_of_mem _ hm, hx⟩

/-- C4: for readable files, the cross-file union distinct count dominates
every per-file distinct count (hence their maximum), with equality when all
files have identical surface sets. -/
theorem c4_union_ge_max (nfc : List Char → List Char)
    (fs : List (List (List String))) (hne : fs ≠ []) :
    ((fs.map fun rows => (csv_summary nfc rows).2.2).foldr max 0 ≤
      csv_union_unique nfc (fs.map some)) ∧
    ((∀ a ∈ fs, ∀ b ∈ fs,
        ((csv_surfaces nfc a).2).toFinset = ((csv_surfaces nfc b).2).toFinset) →
      csv_union_unique nfc (fs.map some) =
        (fs.map fun rows => (csv_summary nfc rows).2.2).foldr max 0) := by
  have hsum : ∀ rows : List (List String),
      (csv_summary nfc rows).2.2 = ((csv_surfaces nfc rows).2).toFinset.card :=
    fun _ => rfl
  constructor
  · apply foldr_max_le
    intro x hx
    rw [List.mem_map] at hx
    obtain ⟨rows, hmem, hval⟩ := hx
    rw [← hval, hsum rows]
    unfold csv_union_unique
    exact Finset.card_le_card (union_superset_of_mem nfc hmem)
  · intro hsame
    cases fs with
    | nil => exact absurd rfl hne
    | cons f0 fs' =>
      have hfold : ((f0 :: fs').map some).foldl (unionStep nfc) ∅ =
          ((csv_surfaces nfc f0).2).toFinset := by
        apply Finset.Subset.antisymm
        · rw [union_foldl_flatten nfc (f0 :: fs')]
          intro x hx
          rw [List.mem_toFinset, List.mem_flatten] at hx
          obtain ⟨l, hl, hxl⟩ := hx
          rw [List.mem_map] at hl
          obtain ⟨g, hg, hgl⟩ := hl
          have : x ∈ ((csv_surfaces nfc g).2).toFinset := by
            rw [List.mem_toFinset, hgl]
            exact hxl
          rw [hsame g hg f0 (List.mem_cons_self f0 fs')] at this
          exact this
        · exact union_superset_of_mem nfc (List.mem_cons_self f0 fs')
      unfold csv_union_unique
      rw [hfold]
      symm
      apply foldr_max_const
      · intro y hy
        rw [List.mem_map] at hy
        obtain ⟨g, hg, hgy⟩ := hy
        rw [← hgy, hsum g, hsame g hg f0 (List.mem_cons_self f0 fs')]
      · simp

/-- C4 witness: two readable files with identical surface sets. -/
theorem c4_witness :
    ([[["学校"]], [["学校"], ["学校"]]] : List (List (List String))) ≠ [] ∧
    ((([[["学校"]], [["学校"], ["学校"]]] : List (List (List String))).map
        fun rows => (csv_summary id rows).2.2).foldr max 0 ≤
      csv_union_unique id
        (([[["学校"]], [["学校"], ["学校"]]] : List (List (List String))).map some)) ∧
    ((∀ a ∈ ([[["学校"]], [["学校"], ["学校"]]] : List (List (List String))),
        ∀ b ∈ ([[["学校"]], [["学校"], ["学校"]]] : List (List (List String))),
        ((csv_surfaces id a).2).toFinset = ((csv_surfaces id b).2).toFinset) →
      csv_union_unique id
          (([[["学校"]], [["学校"], ["学校"]]] : List (List (List String))).map some) =
        (([[["学校"]], [["学校"], ["学校"]]] : List (List (List String))).map
          fun rows => (csv_summary id rows).2.2).foldr max 0) := by
  refine ⟨by decide, ?_, ?_⟩
  · exact (c4_union_ge_max id [[["学校"]], [["学校"], ["学校"]]] (by decide)).1
  · exact (c4_union_ge_max id [[["学校"]], [["学校"], ["学校"]]] (by decide)).2

theorem asciiLower_data (s : String) : (asciiLower s).data = s.data.map lowerChar := rfl

theorem hasJapanese_asciiLower (s : String) (h : hasJapanese s = true) :
    hasJapanese (asciiLower s) = true := by
  unfold hasJapanese at h ⊢
  rw [List.any_eq_true] at h
  obtain ⟨c, hc, hjc⟩ := h
  rw [List.any_eq_true]
  have hfix : lowerChar c = c := by
    unfold lowerChar
    rw [if_neg]
    unfold isJpChar at hjc
    rw [decide_eq_true_eq] at hjc
    omega
  refine ⟨lowerChar c, ?_, ?_⟩
  · rw [asciiLower_data]
    exact List.mem_map_of_mem lowerChar hc
  · rw [hfix]; exact hjc

theorem headerWords_contains_false {x : String} (hx : hasJapanese x = true) :
    headerWords.contains x = false := by
  by_contra h
  rw [Bool.not_eq_false] at h
  have hmem : x ∈ headerWords := by simpa using h
  simp only [headerWords, List.mem_cons, List.not_mem_nil, or_false] at hmem
  rcases hmem with rfl | rfl | rfl | rfl | rfl | rfl | rfl | rfl | rfl | rfl <;>
    exact absurd hx (by decide)

/-- A row whose normalized first cell is non-empty, contains a
logographic/kana character, and fails the lowercase keyword test is
classified as data. -/
theorem looksLike_false_of_data (nfc : List Char → List Char)
    (rows : List (List String)) (idx : Nat) (r : List String)
    (hget : rows.getD idx [] = r)
    (hne : normSurface nfc (headCell r) ≠ "")
    (hjp : hasJapanese (normSurface nfc (headCell r)) = true)
    (hkw : keywordHeaderTest (asciiLower (normSurface nfc (headCell r))) = false) :
    looksLikeHeaderRow nfc rows idx = false := by
  have hcont : headerWords.contains (asciiLower (normSurface nfc (headCell r))) = false :=
    headerWords_contains_false (hasJapanese_asciiLower _ hjp)
  simp only [looksLikeHeaderRow, hget]
  rw [if_neg hne, hcont, hkw, hjp]
  simp

/-- A row whose normalized first cell is a non-empty exact header label is
classified as header. -/
theorem looksLike_true_of_words (nfc : List Char → List Char)
    (rows : List (List String)) (idx : Nat) (r : List String)
    (hget : rows.getD idx [] = r)
    (hne : normSurface nfc (headCell r) ≠ "")
    (hcont : headerWords.contains (asciiLower (normSurface nfc (headCell r))) = true) :
    looksLikeHeaderRow nfc rows idx = true := by
  simp only [looksLikeHeaderRow, hget]
  rw [if_neg hne, hcont]
  simp

/-- A row whose normalized first cell is non-empty, Latin, non-logographic
and which is followed by a logographic next non-empty first cell is
classified as header (branch 5; earlier branches can only also say
header). -/
theorem looksLike_true_of_branch5 (nfc : List Char → List Char)
    (rows : List (List String)) (idx : Nat) (r : List String)
    (hget : rows.getD idx [] = r)
    (hne : normSurface nfc (headCell r) ≠ "")
    (hlat : hasLatin (normSurface nfc (headCell r)) = true)
    (hjp : hasJapanese (normSurface nfc (headCell r)) = false)
    (hnxne : nextNonemptyFirst nfc rows (idx + 1) ≠ "")
    (hnxjp : hasJapanese (nextNonemptyFirst nfc rows (idx + 1)) = true) :
    looksLikeHeaderRow nfc rows idx = true := by
  simp only [looksLikeHeaderRow, hget]
  rw [if_neg hne]
  have hbeq : (nextNonemptyFirst nfc rows (idx + 1) == "") = false :=
    beq_eq_false_iff_ne.mpr hnxne
  cases h2 : headerWords.contains (asciiLower (normSurface nfc (headCell r))) with
  | true => simp
  | false =>
    cases h3 : keywordHeaderTest (asciiLower (normSurface nfc (headCell r))) with
    | true => simp
    | false =>
      cases h4 : decide (1 < r.length) &&
          (hasLatin (normSurface nfc (headCell r)) && hasLatin (rowRest nfc r) &&
            !hasJapanese (normSurface nfc (headCell r)) && !hasJapanese (rowRest nfc r)) with
      | true => simp [h4]
      | false => simp [h4, hlat, hjp, hbeq, hnxjp]

theorem csv_surfaces_snd (nfc : List Char → List Char) (rows : List (List String))
    (h : rows ≠ []) :
    (csv_surfaces nfc rows).2 =
      (rows.drop (headerStart nfc rows)).filterMap fun row =>
        let s := normSurface nfc (headCell row)
        if s = "" then none else some s := by
  unfold csv_surfaces
  rw [if_neg h]

theorem filterMap_surfaces_eq_map (nfc : List Char → List Char) :
    ∀ l : List (List String), (∀ r ∈ l, normSurface nfc (headCell r) ≠ "") →
      (l.filterMap fun row =>
        let s := normSurface nfc (headCell row)
        if s = "" then none else some s) = l.map fun r => normSurface nfc (headCell r) := by
  intro l
  induction l with
  | nil => intro _; rfl
  | cons r l ih =>
    intro h
    have hf : (let s := normSurface nfc (headCell r)
        if s = "" then none else (some s : Option String)) =
        some (normSurface nfc (headCell r)) := by
      simp only []
      rw [if_neg (h r (List.mem_cons_self r l))]
    rw [List.filterMap_cons, hf]
    show normSurface nfc (headCell r) ::
        (l.filterMap fun row =>
          let s := normSurface nfc (headCell row)
          if s = "" then none else some s) =
      (r :: l).map fun r => normSurface nfc (headCell r)
    rw [List.map_cons, ih fun x hx => h x (List.mem_cons_of_mem r hx)]

/-- C6 (amended): for a spreadsheet whose leading row has a non-empty
normalized first cell containing a Latin letter and no logographic/kana
character, followed by at least one data row, where every subsequent row's
normalized first cell is non-empty, contains a logographic/kana character,
and does not pass the lowercase keyword test, the classifier consumes
exactly the one leading row as header and every subsequent first cell is
emitted as a surface in row order. -/
theorem c6_amended_header (nfc : List Char → List Char) (r0 : List String)
    (rest : List (List String))
    (h0ne : normSurface nfc (headCell r0) ≠ "")
    (h0lat : hasLatin (normSurface nfc (headCell r0)) = true)
    (h0jp : hasJapanese (normSurface nfc (headCell r0)) = false)
    (hrne : rest ≠ [])
    (hr : ∀ r ∈ rest, normSurface nfc (headCell r) ≠ "" ∧
      hasJapanese (normSurface nfc (headCell r)) = true ∧
      keywordHeaderTest (asciiLower (normSurface nfc (headCell r))) = false) :
    headerStart nfc (r0 :: rest) = 1 ∧
    (csv_surfaces nfc (r0 :: rest)).2 = rest.map fun r => normSurface nfc (headCell r) := by
  cases rest with
  | nil => exact absurd rfl hrne
  | cons r1 rest' =>
    have hr1 := hr r1 (List.mem_cons_self r1 rest')
    have hnx : nextNonemptyFirst nfc (r0 :: r1 :: rest') 1 = normSurface nfc (headCell r1) := by
      unfold nextNonemptyFirst
      rw [show (r0 :: r1 :: rest').drop 1 = r1 :: rest' from rfl]
      simp only [nextNEAux]
      rw [if_neg hr1.1]
    have hl0 : looksLikeHeaderRow nfc (r0 :: r1 :: rest') 0 = true := by
      apply looksLike_true_of_branch5 nfc (r0 :: r1 :: rest') 0 r0 rfl h0ne h0lat h0jp
      · rw [hnx]; exact hr1.1
      · rw [hnx]; exact hr1.2.1
    have hl1 : looksLikeHeaderRow nfc (r0 :: r1 :: rest') 1 = false :=
      looksLike_false_of_data nfc (r0 :: r1 :: rest') 1 r1 rfl hr1.1 hr1.2.1 hr1.2.2
    have hstart : headerStart nfc (r0 :: r1 :: rest') = 1 := by
      unfold headerStart
      rw [show (r0 :: r1 :: rest').length = rest'.length + 1 + 1 from by simp]
      simp only [headerStartAux]
      rw [hl0, hl1]
      simp
    refine ⟨hstart, ?_⟩
    rw [csv_surfaces_snd nfc _ (List.cons_ne_nil r0 (r1 :: rest')), hstart,
      show (r0 :: r1 :: rest').drop 1 = r1 :: rest' from rfl]
    exact filterMap_surfaces_eq_map nfc (r1 :: rest') fun r hrr => (hr r hrr).1

/-- C6 counterexample: `[["word"], ["word学"]]` fits the claim's shape (a
lone all-Latin label row, then a data row whose first cell contains a
logographic character), yet the classifier consumes BOTH rows as headers —
the data cell "word学" matches the keyword heuristic — so header scanning
consumes two rows and no surface at all is emitted, contradicting the
claimed emission of "word学". -/
theorem c6_counterexample :
    headerStart id [["word"], ["word学"]] = 2 ∧
    (csv_surfaces id [["word"], ["word学"]]).2 = [] ∧
    (csv_surfaces id [["word"], ["word学"]]).2 ≠ [normSurface id "word学"] := by
  refine ⟨?_, ?_, ?_⟩ <;> decide

/-- C6 witness at `nfc = id` with rows `[["word"], ["学校"]]`. -/
theorem c6_witness :
    normSurface id (headCell ["word"]) ≠ "" ∧
    hasLatin (normSurface id (headCell ["word"])) = true ∧
    hasJapanese (normSurface id (headCell ["word"])) = false ∧
    ([["学校"]] : List (List String)) ≠ [] ∧
    (∀ r ∈ ([["学校"]] : List (List String)), normSurface id (headCell r) ≠ "" ∧
      hasJapanese (normSurface id (headCell r)) = true ∧
      keywordHeaderTest (asciiLower (normSurface id (headCell r))) = false) ∧
    headerStart id [["word"], ["学校"]] = 1 ∧
    (csv_surfaces id [["word"], ["学校"]]).2 =
      ([["学校"]] : List (List String)).map fun r => normSurface id (headCell r) := by
  refine ⟨by decide, by decide, by decide, by decide, by decide, ?_, ?_⟩
  · exact (c6_amended_header id ["word"] [["学校"]] (by decide) (by decide) (by decide)
      (by decide) (by decide)).1
  · exact (c6_amended_header id ["word"] [["学校"]] (by decide) (by decide) (by decide)
      (by decide) (by decide)).2

theorem headerStartAux_step (nfc : List Char → List Char) (rows : List (List String))
    (fuel i : Nat) :
    headerStartAux nfc rows (fuel + 1) i =
      if decide (i < rows.length) && looksLikeHeaderRow nfc rows i then
        headerStartAux nfc rows fuel (i + 1)
      else i := rfl

theorem csv_surfaces_fst (nfc : List Char → List Char) (rows : List (List String))
    (h : rows ≠ []) : (csv_surfaces nfc rows).1 = rows.length := by
  unfold csv_surfaces
  rw [if_neg h]

theorem normSurface_fix (nfc : List Char → List Char) (s : String)
    (h1 : stripWs s.data = s.data) (h2 : nfc s.data = s.data)
    (h3 : collapseWs s.data = s.data) : normSurface nfc s = s := by
  unfold normSurface
  rw [h1, h2, h3]

/-- C2: scenario A — `a.csv` = [["word"], ["学校"], ["食べる"]] and `b.csv` =
[["食べる"], ["走る"]] summarize to per-file distinct counts 2 and 2 (the
"word" row is classified as header and skipped), and the cross-file union
distinct count is 3; stated for every `nfc` that fixes the four scenario
strings (true of NFC, since they are canonically composed). -/
theorem c2_scenarioA (nfc : List Char → List Char)
    (h1 : nfc "word".data = "word".data) (h2 : nfc "学校".data = "学校".data)
    (h3 : nfc "食べる".data = "食べる".data) (h4 : nfc "走る".data = "走る".data) :
    csv_summary nfc aRows = (3, 2, 2) ∧
    csv_summary nfc bRows = (2, 2, 2) ∧
    csv_union_unique nfc [some aRows, some bRows] = 3 := by
  have nword : normSurface nfc "word" = "word" :=
    normSurface_fix nfc _ (by decide) h1 (by decide)
  have ngak : normSurface nfc "学校" = "学校" :=
    normSurface_fix nfc _ (by decide) h2 (by decide)
  have ntab : normSurface nfc "食べる" = "食べる" :=
    normSurface_fix nfc _ (by decide) h3 (by decide)
  have nhas : normSurface nfc "走る" = "走る" :=
    normSurface_fix nfc _ (by decide) h4 (by decide)
  have hA0 : looksLikeHeaderRow nfc aRows 0 = true := by
    apply looksLike_true_of_words nfc aRows 0 ["word"] rfl
    · show normSurface nfc "word" ≠ ""
      rw [nword]; decide
    · show headerWords.contains (asciiLower (normSurface nfc "word")) = true
      rw [nword]; decide
  have hA1 : looksLikeHeaderRow nfc aRows 1 = false := by
    apply looksLike_false_of_data nfc aRows 1 ["学校"] rfl
    · show normSurface nfc "学校" ≠ ""
      rw [ngak]; decide
    · show hasJapanese (normSurface nfc "学校") = true
      rw [ngak]; decide
    · show keywordHeaderTest (asciiLower (normSurface nfc "学校")) = false
      rw [ngak]; decide
  have hB0 : looksLikeHeaderRow nfc bRows 0 = false := by
    apply looksLike_false_of_data nfc bRows 0 ["食べる"] rfl
    · show normSurface nfc "食べる" ≠ ""
      rw [ntab]; decide
    · show hasJapanese (normSurface nfc "食べる") = true
      rw [ntab]; decide
    · show keywordHeaderTest (asciiLower (normSurface nfc "食べる")) = false
      rw [ntab]; decide
  have hsA : headerStart nfc aRows = 1 := by
    show headerStartAux nfc aRows 3 0 = 1
    rw [show (3 : Nat) = 2 + 1 from rfl, headerStartAux_step, hA0,
      show (2 : Nat) = 1 + 1 from rfl]
    simp only [Bool.and_true]
    rw [if_pos (by decide), headerStartAux_step, hA1]
    simp
  have hsB : headerStart nfc bRows = 0 := by
    show headerStartAux nfc bRows 2 0 = 0
    rw [show (2 : Nat) = 1 + 1 from rfl, headerStartAux_step, hB0]
    simp
  have hneA : ∀ r ∈ ([["学校"], ["食べる"]] : List (List String)),
      normSurface nfc (headCell r) ≠ "" := by
    intro r hr
    simp only [List.mem_cons, List.not_mem_nil, or_false] at hr
    rcases hr with rfl | rfl
    · show normSurface nfc "学校" ≠ ""
      rw [ngak]; decide
    · show normSurface nfc "食べる" ≠ ""
      rw [ntab]; decide
  have hneB : ∀ r ∈ ([["食べる"], ["走る"]] : List (List String)),
      normSurface nfc (headCell r) ≠ "" := by
    intro r hr
    simp only [List.mem_cons, List.not_mem_nil, or_false] at hr
    rcases hr with rfl | rfl
    · show normSurface nfc "食べる" ≠ ""
      rw [ntab]; decide
    · show normSurface nfc "走る" ≠ ""
      rw [nhas]; decide
  have hs2A : (csv_surfaces nfc aRows).2 = ["学校", "食べる"] := by
    rw [csv_surfaces_snd nfc aRows (by decide), hsA,
      show aRows.drop 1 = [["学校"], ["食べる"]] from rfl,
      filterMap_surfaces_eq_map nfc [["学校"], ["食べる"]] hneA,
      List.map_cons, List.map_cons, List.map_nil,
      show normSurface nfc (headCell ["学校"]) = "学校" from ngak,
      show normSurface nfc (headCell ["食べる"]) = "食べる" from ntab]
  have hs2B : (csv_surfaces nfc bRows).2 = ["食べる", "走る"] := by
    rw [csv_surfaces_snd nfc bRows (by decide), hsB,
      show bRows.drop 0 = [["食べる"], ["走る"]] from rfl,
      filterMap_surfaces_eq_map nfc [["食べる"], ["走る"]] hneB,
      List.map_cons, List.map_cons, List.map_nil,
      show normSurface nfc (headCell ["食べる"]) = "食べる" from ntab,
      show normSurface nfc (headCell ["走る"]) = "走る" from nhas]
  refine ⟨?_, ?_, ?_⟩
  · unfold csv_summary
    simp only []
    rw [csv_surfaces_fst nfc aRows (by decide), hs2A]
    decide
  · unfold csv_summary
    simp only []
    rw [csv_surfaces_fst nfc bRows (by decide), hs2B]
    decide
  · unfold csv_union_unique
    simp only [List.foldl, unionStep]
    rw [hs2A, hs2B]
    decide

/-- C2 witness at `nfc = id`. -/
theorem c2_witness :
    (id "word".data = "word".data) ∧
    csv_summary id aRows = (3, 2, 2) ∧
    csv_summary id bRows = (2, 2, 2) ∧
    csv_union_unique id [some aRows, some bRows] = 3 :=
  ⟨rfl, c2_scenarioA id rfl rfl rfl rfl⟩
